import Mathlib

/-!
Shallow embedding of `hash_table.c` / `hash_table.h` (generic hash table with
a two-level linked structure: sorted collision chains of fill entries, each
fill entry carrying a FIFO chain of duplicate entries).

Modelling conventions:
* Payload objects (`void *`) become a type parameter `α`; patterns (`char *`)
  become `String`.
* The linked chains (`first_fill`/`next_fill`/`last_fill`, and
  `first_duplicate`/`next_duplicate`/`last_duplicate`) become Lean lists in
  head-to-tail chain order; the `last_*` tail pointers are an O(1) access
  optimisation in C and are represented implicitly by the list tail.
* The strategy function pointers (`hash_function`, `compare_function`,
  `search_function`) are installed once by `Hash_Table_Init` and never change,
  so they are passed to each operation as explicit parameters instead of being
  stored in the table record; `free_function` only matters for teardown, which
  no claim concerns.
* `calloc` outcomes are an explicit allocation oracle (`Bool` per call, in call
  order; an exhausted oracle means success).
* Undefined behaviour (an out-of-bounds array access or a NULL dereference)
  is `Option.none` at the outermost level of an operation result.
* `unsigned long` counters become `Nat`: they are only ever incremented by
  one and read back, no arithmetic in the code relies on wrap-around.
-/

/-- One `hash_table_fill_t` node: a representative payload plus its duplicate
chain (`first_duplicate .. last_duplicate`) in chain order. -/
structure hash_table_fill_t (α : Type) where
  object : α
  duplicates : List α
deriving Repr, DecidableEq

/-- One `hash_table_bucket_t`: the fill chain `first_fill .. last_fill` in
chain order. -/
structure hash_table_bucket_t (α : Type) where
  fills : List (hash_table_fill_t α)
deriving Repr, DecidableEq

/-- The `hash_table_t` record: the bucket-pointer array (a NULL slot is
`none`) and the four counters. -/
structure hash_table_t (α : Type) where
  buckets : List (Option (hash_table_bucket_t α))
  number_of_total_buckets : Nat
  number_of_buckets_filled : Nat
  number_of_collisions : Nat
  number_of_duplicates : Nat
deriving Repr, DecidableEq

/-- Pop the outcome of the next `calloc` call from the allocation oracle
(an exhausted oracle means the allocation succeeds). -/
def takeAlloc : List Bool → Bool × List Bool
  | [] => (true, [])
  | b :: rest => (b, rest)

/-- `Hash_Table_Init`: two `calloc` calls (table record, bucket array), a
zeroed bucket array of `number_of_buckets` slots and zeroed counters.
Returns `none` (the C NULL) if either allocation fails. -/
def Hash_Table_Init (α : Type) (number_of_buckets : Nat) (alloc1 alloc2 : Bool) :
    Option (hash_table_t α) :=
  if alloc1 = false then none
  else if alloc2 = false then none
  else some (hash_table_t.mk (List.replicate number_of_buckets none)
    number_of_buckets 0 0 0)

/-- The bucket-array access `table->buckets[hash_function(pattern,
number_of_total_buckets)]` shared by `Hash_Table_Insert` and
`Hash_Table_Match`; `none` is an out-of-bounds access (undefined behaviour in
C, there is no defensive bounds check). -/
def bucketLookup {α : Type} (hash : String → Nat → Nat) (table : hash_table_t α)
    (pattern : String) : Option (Option (hash_table_bucket_t α)) :=
  table.buckets.get? (hash pattern table.number_of_total_buckets)

/-- The collision-chain walk of `Hash_Table_Insert` (the `while` loop plus the
`!objectPlaced` tail code), acting on the fill chain of a non-empty bucket.
At each fill entry it evaluates `compare_function(existing, object)`:
zero appends `object` to that entry of the duplicate chain tail, negative
advances, positive splices a new fill entry before the current one; an
exhausted chain appends a new fill entry at the tail. Exactly one `calloc`
happens on each terminating path, its outcome is `allocOk`; `none` models the
C `return 0` with nothing yet linked. The `Bool` in the result is the C
`objectPlaced`-as-duplicate distinction: `true` means a duplicate entry was
added, `false` means a fill entry was added. -/
def placeObject {α : Type} (cmp : α → α → Int) (object : α) (allocOk : Bool) :
    List (hash_table_fill_t α) → Option (List (hash_table_fill_t α) × Bool)
  | [] =>
    if allocOk then some ([hash_table_fill_t.mk object []], false) else none
  | f :: rest =>
    if cmp f.object object = 0 then
      if allocOk then
        some (hash_table_fill_t.mk f.object (f.duplicates ++ [object]) :: rest, true)
      else none
    else if cmp f.object object < 0 then
      match placeObject cmp object allocOk rest with
      | none => none
      | some (rest2, isDup) => some (f :: rest2, isDup)
    else
      if allocOk then
        some (hash_table_fill_t.mk object [] :: f :: rest, false)
      else none

/-- `Hash_Table_Insert`. Result `none` is the undefined out-of-bounds bucket
access; `some (r, t)` is return value `r` (C `int`: 1 success, 0 allocation
failure) together with the table state after the call. The empty-bucket path
performs two allocations (bucket record, fill entry) and installs the new
bucket only after both succeed (on the second failure the C frees the first
allocation again); the non-empty path performs exactly one allocation inside
`placeObject`. -/
def Hash_Table_Insert {α : Type} (hash : String → Nat → Nat) (cmp : α → α → Int)
    (table : hash_table_t α) (object : α) (pattern : String)
    (allocs : List Bool) : Option (Int × hash_table_t α) :=
  match bucketLookup hash table pattern with
  | none => none
  | some none =>
    if (takeAlloc allocs).1 = false then some (0, table)
    else if (takeAlloc (takeAlloc allocs).2).1 = false then some (0, table)
    else
      some (1, hash_table_t.mk
        (table.buckets.set (hash pattern table.number_of_total_buckets)
          (some (hash_table_bucket_t.mk [hash_table_fill_t.mk object []])))
        table.number_of_total_buckets
        (table.number_of_buckets_filled + 1)
        table.number_of_collisions
        table.number_of_duplicates)
  | some (some bucket) =>
    match placeObject cmp object (takeAlloc allocs).1 bucket.fills with
    | none => some (0, table)
    | some (fills2, true) =>
      some (1, hash_table_t.mk
        (table.buckets.set (hash pattern table.number_of_total_buckets)
          (some (hash_table_bucket_t.mk fills2)))
        table.number_of_total_buckets
        table.number_of_buckets_filled
        table.number_of_collisions
        (table.number_of_duplicates + 1))
    | some (fills2, false) =>
      some (1, hash_table_t.mk
        (table.buckets.set (hash pattern table.number_of_total_buckets)
          (some (hash_table_bucket_t.mk fills2)))
        table.number_of_total_buckets
        table.number_of_buckets_filled
        (table.number_of_collisions + 1)
        table.number_of_duplicates)

/-- A store `found_records[i] = v` into the result array of
`Hash_Table_Match`; slots are `Option α` because `calloc` zeroes the array
(`none` is a NULL slot). An out-of-bounds store is undefined behaviour,
modelled as `none`. -/
def arrayWrite {α : Type} (arr : List (Option α)) (i : Nat) (v : α) :
    Option (List (Option α)) :=
  if i < arr.length then some (arr.set i (some v)) else none

/-- The duplicate-collection loop of `Hash_Table_Match`: while the duplicate
chain is not exhausted and `*number_of_objects_found < max_num_records`, store
the duplicate at index `*number_of_objects_found` and increment the count. -/
def collectDupsLoop {α : Type} (max_num_records : Nat) :
    List α → List (Option α) → Nat → Option (List (Option α) × Nat)
  | [], arr, count => some (arr, count)
  | d :: ds, arr, count =>
    if count < max_num_records then
      match arrayWrite arr count d with
      | none => none
      | some arr2 => collectDupsLoop max_num_records ds arr2 (count + 1)
    else some (arr, count)

/-- The fill-chain walk of `Hash_Table_Match`: test each fill entry with
`search_function(pattern, object)` until one returns 1. On the first match,
`calloc` the result array of `max_num_records` slots (on allocation failure
return NULL with the count untouched), store the representative at index 0,
increment the count from its entry value `countIn`, then run the duplicate
loop. If the chain is exhausted without a match, return NULL leaving the
count at its entry value. In the result, the first component is the returned
`void **` (`none` = NULL). -/
def matchFills {α : Type} (search : String → α → Int) (pattern : String)
    (countIn : Nat) (max_num_records : Nat) (allocOk : Bool) :
    List (hash_table_fill_t α) → Option (Option (List (Option α)) × Nat)
  | [] => some (none, countIn)
  | f :: rest =>
    if search pattern f.object = 1 then
      if allocOk then
        match arrayWrite (List.replicate max_num_records none) 0 f.object with
        | none => none
        | some arr =>
          match collectDupsLoop max_num_records f.duplicates arr (countIn + 1) with
          | none => none
          | some (arr2, c) => some (some arr2, c)
      else some (none, countIn)
    else matchFills search pattern countIn max_num_records allocOk rest

/-- `Hash_Table_Match`. `countIn` is the value `*number_of_objects_found`
holds on entry (the C reads and increments it rather than zeroing it first,
except on the empty-bucket path). `none` is undefined behaviour (the
out-of-bounds bucket access, or the store into a zero-length result array
when `max_num_records = 0` and a match is found); `some (res, c)` is the
returned pointer (`none` = NULL) and the final `*number_of_objects_found`. -/
def Hash_Table_Match {α : Type} (hash : String → Nat → Nat)
    (search : String → α → Int) (table : hash_table_t α) (pattern : String)
    (countIn : Nat) (max_num_records : Nat) (allocOk : Bool) :
    Option (Option (List (Option α)) × Nat) :=
  match bucketLookup hash table pattern with
  | none => none
  | some none => some (none, 0)
  | some (some bucket) =>
    matchFills search pattern countIn max_num_records allocOk bucket.fills

/-- `Hash_Table_First_Match`: calls `Hash_Table_Match` with a fresh zero
count and `max_num_records = 1`, returns `found_objects[0]` when the match
returned a non-NULL array and NULL otherwise. -/
def Hash_Table_First_Match {α : Type} (hash : String → Nat → Nat)
    (search : String → α → Int) (table : hash_table_t α) (pattern : String)
    (allocOk : Bool) : Option (Option α) :=
  match Hash_Table_Match hash search table pattern 0 1 allocOk with
  | none => none
  | some (none, _) => some none
  | some (some arr, _) =>
    match arr.get? 0 with
    | none => none
    | some v => some v

/-- `Hash_Table_Insert_No_Duplicate`: a bounded lookup (`Hash_Table_Match`
with a fresh zero count and cap 1); if it reported zero records, delegate to
`Hash_Table_Insert` mapping its 0 to -1 and its 1 to 1; otherwise store
`object_temp[0]` into `*found_duplicate` and return 0 without touching the
table. The result is `(return value, table state, value written to
*found_duplicate if any)`. -/
def Hash_Table_Insert_No_Duplicate {α : Type} (hash : String → Nat → Nat)
    (cmp : α → α → Int) (search : String → α → Int) (table : hash_table_t α)
    (object : α) (pattern : String) (matchAlloc : Bool)
    (insertAllocs : List Bool) :
    Option (Int × hash_table_t α × Option (Option α)) :=
  match Hash_Table_Match hash search table pattern 0 1 matchAlloc with
  | none => none
  | some (object_temp, number_records) =>
    if number_records = 0 then
      match Hash_Table_Insert hash cmp table object pattern insertAllocs with
      | none => none
      | some (r, t2) =>
        if r = 0 then some (-1, t2, none) else some (1, t2, none)
    else
      match object_temp with
      | none => none
      | some arr =>
        match arr.get? 0 with
        | none => none
        | some v => some (0, table, some v)

/-- LP64 sizes of the four C records, used by `Hash_Table_Size`:
a pointer is 8 bytes, `hash_table_t` is one pointer, four `unsigned long`
and four function pointers, `hash_table_bucket_t` is two pointers,
`hash_table_fill_t` four, `hash_table_duplicate_t` two. -/
def sizeof_ptr : Nat := 8

/-- Size of the `hash_table_t` record under the LP64 layout. -/
def sizeof_hash_table_t : Nat := 72

/-- Size of the `hash_table_bucket_t` record under the LP64 layout. -/
def sizeof_hash_table_bucket_t : Nat := 16

/-- Size of the `hash_table_fill_t` record under the LP64 layout. -/
def sizeof_hash_table_fill_t : Nat := 32

/-- Size of the `hash_table_duplicate_t` record under the LP64 layout. -/
def sizeof_hash_table_duplicate_t : Nat := 16

/-- `Hash_Table_Size`: table header plus bucket-pointer array, one bucket
record per filled bucket, one fill record per `filled + collisions`, one
duplicate record per duplicate. -/
def Hash_Table_Size {α : Type} (table : hash_table_t α) : Nat :=
  let table_size := sizeof_hash_table_t +
    table.number_of_total_buckets * sizeof_ptr
  let bucket_size := table.number_of_buckets_filled * sizeof_hash_table_bucket_t
  let bucket_fill_size := (table.number_of_buckets_filled +
    table.number_of_collisions) * sizeof_hash_table_fill_t
  let bucket_duplicate_size := table.number_of_duplicates *
    sizeof_hash_table_duplicate_t
  table_size + bucket_size + bucket_fill_size + bucket_duplicate_size

/-- One mutating call against the table: a plain insert or a
duplicate-guarded insert, each with its allocation oracle. -/
inductive table_op (α : Type) where
  | ins (object : α) (pattern : String) (allocs : List Bool)
  | insNoDup (object : α) (pattern : String) (matchAlloc : Bool)
      (allocs : List Bool)

/-- Apply one operation to a table, keeping the resulting table state
(the return code and any `found_duplicate` output are dropped);
`none` propagates undefined behaviour. -/
def applyOp {α : Type} (hash : String → Nat → Nat) (cmp : α → α → Int)
    (search : String → α → Int) (t : hash_table_t α) :
    table_op α → Option (hash_table_t α)
  | table_op.ins obj p allocs =>
    match Hash_Table_Insert hash cmp t obj p allocs with
    | none => none
    | some (_, t2) => some t2
  | table_op.insNoDup obj p mAlloc allocs =>
    match Hash_Table_Insert_No_Duplicate hash cmp search t obj p mAlloc allocs with
    | none => none
    | some (_, t2, _) => some t2

/-- Run a sequence of operations left to right. -/
def runOps {α : Type} (hash : String → Nat → Nat) (cmp : α → α → Int)
    (search : String → α → Int) :
    hash_table_t α → List (table_op α) → Option (hash_table_t α)
  | t, [] => some t
  | t, op :: rest =>
    match applyOp hash cmp search t op with
    | none => none
    | some t2 => runOps hash cmp search t2 rest

/-- Number of fill entries hanging off one bucket slot. -/
def bucketFillCount {α : Type} : Option (hash_table_bucket_t α) → Nat
  | none => 0
  | some b => b.fills.length

/-- Number of duplicate entries hanging off a fill chain. -/
def fillsDupCount {α : Type} (fills : List (hash_table_fill_t α)) : Nat :=
  (fills.map (fun f => f.duplicates.length)).sum

/-- Number of duplicate entries hanging off one bucket slot. -/
def bucketDupCount {α : Type} : Option (hash_table_bucket_t α) → Nat
  | none => 0
  | some b => fillsDupCount b.fills

/-- Total number of fill entries currently linked into the table (equals the
number ever created, since nothing is removed). -/
def totalFills {α : Type} (t : hash_table_t α) : Nat :=
  (t.buckets.map bucketFillCount).sum

/-- Total number of duplicate entries currently linked into the table. -/
def totalDups {α : Type} (t : hash_table_t α) : Nat :=
  (t.buckets.map bucketDupCount).sum

/-- The outcome the specification ascribes to a capped-at-one lookup: the
representative object of the first fill entry of the hashed bucket that the
search strategy accepts, or an absent result. Used to state the
`Hash_Table_First_Match` refinement claim. -/
def firstMatchSpec {α : Type} (hash : String → Nat → Nat)
    (search : String → α → Int) (table : hash_table_t α) (pattern : String) :
    Option α :=
  match bucketLookup hash table pattern with
  | some (some bkt) =>
    (bkt.fills.find? (fun f => decide (search pattern f.object = 1))).map
      (fun f => f.object)
  | _ => none

/-- Fixture hash strategy that maps every pattern to bucket 0. -/
def hashZero : String → Nat → Nat := fun _ _ => 0

/-- Fixture hash strategy that violates the in-range contract (always 1). -/
def hashBad : String → Nat → Nat := fun _ _ => 1

/-- Fixture compare strategy on integer objects: the sign of subtraction. -/
def cmpInt : Int → Int → Int := fun a b => a - b

/-- Fixture search strategy that never reports a match. -/
def searchNever : String → Int → Int := fun _ _ => 0

/-- Fixture search strategy that accepts every candidate. -/
def searchAlways : String → Int → Int := fun _ _ => 1

/-- Fixture pattern string. -/
def patA : String := "a"

/-- Fixture one-bucket table holding representative 5 with one duplicate 5
(the state after two inserts of 5 under `hashZero`/`cmpInt`). -/
def c2table : hash_table_t Int :=
  hash_table_t.mk [some (hash_table_bucket_t.mk [hash_table_fill_t.mk 5 [5]])]
    1 1 0 1

/-- Fixture one-bucket table holding the single representative 5
(the state after one insert of 5 under `hashZero`). -/
def c7table : hash_table_t Int :=
  hash_table_t.mk [some (hash_table_bucket_t.mk [hash_table_fill_t.mk 5 []])]
    1 1 0 0

/-- Every return-0 path of `Hash_Table_Insert` fires before any linking step,
so the resulting table state equals the input state. -/
theorem insert_fail_eq {α : Type} (hash : String → Nat → Nat)
    (cmp : α → α → Int) (t : hash_table_t α) (object : α) (pattern : String)
    (allocs : List Bool) (t' : hash_table_t α)
    (h : Hash_Table_Insert hash cmp t object pattern allocs = some (0, t')) :
    t' = t := by
  unfold Hash_Table_Insert at h
  split at h
  · exact Option.noConfusion h
  · split at h
    · simp only [Option.some.injEq, Prod.mk.injEq] at h
      exact h.2.symm
    · split at h
      · simp only [Option.some.injEq, Prod.mk.injEq] at h
        exact h.2.symm
      · simp only [Option.some.injEq, Prod.mk.injEq] at h
        exact absurd h.1 (by decide)
  · split at h
    · simp only [Option.some.injEq, Prod.mk.injEq] at h
      exact h.2.symm
    · simp only [Option.some.injEq, Prod.mk.injEq] at h
      exact absurd h.1 (by decide)
    · simp only [Option.some.injEq, Prod.mk.injEq] at h
      exact absurd h.1 (by decide)

/-- An in-range hash makes the shared bucket-array access succeed. -/
theorem bucketLookup_isSome {α : Type} (hash : String → Nat → Nat)
    (t : hash_table_t α) (pattern : String)
    (hh : hash pattern t.number_of_total_buckets < t.buckets.length) :
    ∃ ob, bucketLookup hash t pattern = some ob :=
  ⟨_, List.get?_eq_get hh⟩

/-- `Hash_Table_Insert` never reaches undefined behaviour when the hashed
index is in range. -/
theorem insert_ne_none {α : Type} (hash : String → Nat → Nat)
    (cmp : α → α → Int) (t : hash_table_t α) (object : α) (pattern : String)
    (allocs : List Bool)
    (hh : hash pattern t.number_of_total_buckets < t.buckets.length) :
    Hash_Table_Insert hash cmp t object pattern allocs ≠ none := by
  obtain ⟨ob, hob⟩ := bucketLookup_isSome hash t pattern hh
  unfold Hash_Table_Insert
  rw [hob]
  cases ob with
  | none =>
    dsimp only
    split
    · simp
    · split <;> simp
  | some b =>
    dsimp only
    cases hp : placeObject cmp object (takeAlloc allocs).1 b.fills with
    | none => simp
    | some pr =>
      obtain ⟨fills2, isDup⟩ := pr
      cases isDup <;> simp

/-- The duplicate-collection loop never reaches undefined behaviour while the
result array keeps length `max_num_records`: every store is guarded by
`count < max_num_records`. -/
theorem collectDupsLoop_ne_none {α : Type} (max_num_records : Nat)
    (ds : List α) : ∀ arr count, arr.length = max_num_records →
    collectDupsLoop max_num_records ds arr count ≠ none := by
  induction ds with
  | nil =>
    intro arr count _
    simp [collectDupsLoop]
  | cons d ds ih =>
    intro arr count hlen
    unfold collectDupsLoop
    by_cases hc : count < max_num_records
    · have hw : arrayWrite arr count d = some (arr.set count (some d)) := by
        unfold arrayWrite
        rw [hlen]
        simp [hc]
      simp only [hc, if_true, hw]
      exact ih _ _ (by rw [List.length_set]; exact hlen)
    · simp [hc]

/-- With a positive record cap, the fill-chain walk of `Hash_Table_Match`
never reaches undefined behaviour. -/
theorem matchFills_ne_none {α : Type} (search : String → α → Int)
    (pattern : String) (countIn max_num_records : Nat) (alloc : Bool)
    (hmax : 1 ≤ max_num_records) (fills : List (hash_table_fill_t α)) :
    matchFills search pattern countIn max_num_records alloc fills ≠ none := by
  induction fills with
  | nil => simp [matchFills]
  | cons f rest ih =>
    unfold matchFills
    by_cases hs : search pattern f.object = 1
    · simp only [hs, if_true]
      cases alloc with
      | false => simp
      | true =>
        have hw : arrayWrite (List.replicate max_num_records (none : Option α))
            0 f.object =
            some ((List.replicate max_num_records none).set 0 (some f.object)) := by
          unfold arrayWrite
          rw [List.length_replicate]
          simp [Nat.lt_of_lt_of_le Nat.zero_lt_one hmax]
        simp only [hw]
        cases hcd : collectDupsLoop max_num_records f.duplicates
            ((List.replicate max_num_records none).set 0 (some f.object))
            (countIn + 1) with
        | none =>
          exact absurd hcd (collectDupsLoop_ne_none max_num_records
            f.duplicates _ _
            (by rw [List.length_set, List.length_replicate]))
        | some pr =>
          obtain ⟨arr2, c⟩ := pr
          simp
    · simpa [hs] using ih

/-- With a positive record cap and an in-range hash, `Hash_Table_Match`
never reaches undefined behaviour. -/
theorem match_ne_none {α : Type} (hash : String → Nat → Nat)
    (search : String → α → Int) (t : hash_table_t α) (pattern : String)
    (countIn max_num_records : Nat) (alloc : Bool)
    (hh : hash pattern t.number_of_total_buckets < t.buckets.length)
    (hmax : 1 ≤ max_num_records) :
    Hash_Table_Match hash search t pattern countIn max_num_records alloc ≠
      none := by
  obtain ⟨ob, hob⟩ := bucketLookup_isSome hash t pattern hh
  unfold Hash_Table_Match
  rw [hob]
  cases ob with
  | none => simp
  | some b =>
    exact matchFills_ne_none search pattern countIn max_num_records alloc
      hmax b.fills

/-- C10: when the injected hash strategy returns an index strictly below the
bucket count, the shared bucket-array access of `Hash_Table_Insert` and
`Hash_Table_Match` is in bounds and neither operation reaches its undefined
out-of-range branch (for `Hash_Table_Match` with a positive record cap; a
zero cap can still overflow the separate result array, see the C2 record).
The final conjunct shows there is no defensive bounds check: a hash strategy
returning an out-of-range index drives `Hash_Table_Insert` straight into the
undefined branch. -/
theorem C10_bucket_index_safety {α : Type} (hash : String → Nat → Nat)
    (cmp : α → α → Int) (search : String → α → Int) (t : hash_table_t α)
    (object : α) (pattern : String) (allocs : List Bool)
    (countIn max_num_records : Nat) (alloc : Bool)
    (hh : hash pattern t.number_of_total_buckets < t.buckets.length) :
    bucketLookup hash t pattern ≠ none ∧
    Hash_Table_Insert hash cmp t object pattern allocs ≠ none ∧
    (1 ≤ max_num_records →
      Hash_Table_Match hash search t pattern countIn max_num_records alloc ≠
        none) ∧
    Hash_Table_Insert hashBad cmpInt c7table 9 patA [true, true] = none := by
  refine ⟨?_, ?_, ?_, by decide⟩
  · obtain ⟨ob, hob⟩ := bucketLookup_isSome hash t pattern hh
    simp [hob]
  · exact insert_ne_none hash cmp t object pattern allocs hh
  · intro hmax
    exact match_ne_none hash search t pattern countIn max_num_records alloc
      hh hmax

/-- C10 witness: the safety theorem applied to a concrete in-range instance. -/
theorem C10_bucket_index_safety_witness :
    bucketLookup hashZero c7table patA ≠ none ∧
    Hash_Table_Insert hashZero cmpInt c7table 9 patA [true, true] ≠ none ∧
    (1 ≤ 1 →
      Hash_Table_Match hashZero searchNever c7table patA 0 1 true ≠ none) ∧
    Hash_Table_Insert hashBad cmpInt c7table 9 patA [true, true] = none :=
  C10_bucket_index_safety hashZero cmpInt searchNever c7table 9 patA
    [true, true] 0 1 true (by decide)

/-- C7: on an empty bucket `Hash_Table_Match` does set the count to zero and
return NULL (second conjunct), but when the bucket is non-empty and no fill
entry satisfies the search strategy the code returns NULL leaving the count
at its entry value (first conjunct: entry value 7 stays 7), contradicting the
claim that the count is set to zero regardless of its entry value. -/
theorem C7_no_match_count_not_zeroed :
    Hash_Table_Match hashZero searchNever c7table patA 7 3 true =
      some (none, 7) ∧
    Hash_Table_Match hashZero searchNever (hash_table_t.mk [none] 1 0 0 0)
      patA 7 3 true = some (none, 0) := by
  decide

/-- C2: with `maxRecords = 0` and a matching entry present,
`Hash_Table_Match` stores the representative past the end of the zero-length
result array — undefined behaviour instead of the claimed empty result
(first conjunct); with a positive cap the claimed behaviour does hold, e.g.
cap 3 on one representative plus one duplicate returns exactly
min(3, 2) = 2 objects, representative first (second conjunct). -/
theorem C2_zero_cap_out_of_bounds :
    Hash_Table_Match hashZero searchAlways c2table patA 0 0 true = none ∧
    Hash_Table_Match hashZero searchAlways c2table patA 0 3 true =
      some (some [some 5, some 5, none], 2) := by
  decide

/-- C6 claim, stated as a proposition: some execution of `Hash_Table_Insert`
returns the allocation-failure result 0 while the table state has already
been modified. -/
def insertModifiedOnFailure : Prop :=
  ∃ (α : Type) (hash : String → Nat → Nat) (cmp : α → α → Int)
    (t : hash_table_t α) (object : α) (pattern : String) (allocs : List Bool)
    (t' : hash_table_t α),
    Hash_Table_Insert hash cmp t object pattern allocs = some (0, t') ∧
    t' ≠ t

/-- C6 counterexample: no such execution exists — `Hash_Table_Insert` only
allocates before it links, and the empty-bucket path frees its first
allocation again before returning 0, so every failing call leaves the table
exactly as it was. -/
theorem C6_counterexample : ¬ insertModifiedOnFailure := by
  rintro ⟨α, hash, cmp, t, object, pattern, allocs, t', h, hne⟩
  exact hne (insert_fail_eq hash cmp t object pattern allocs t' h)

/-- C6 amended: whenever `Hash_Table_Insert` returns the AllocationFailure
result 0, the table is left entirely unchanged; no partially-linked structure
can be observed because every allocation failure happens before any linking
step. -/
theorem C6_failure_leaves_table_unchanged {α : Type}
    (hash : String → Nat → Nat) (cmp : α → α → Int) (t : hash_table_t α)
    (object : α) (pattern : String) (allocs : List Bool)
    (t' : hash_table_t α)
    (h : Hash_Table_Insert hash cmp t object pattern allocs = some (0, t')) :
    t' = t :=
  insert_fail_eq hash cmp t object pattern allocs t' h

/-- C6 witness: a duplicate insert whose node allocation fails returns 0 with
the table unchanged. -/
theorem C6_failure_leaves_table_unchanged_witness :
    Hash_Table_Insert hashZero cmpInt c2table 5 patA [false] =
      some (0, c2table) ∧ c2table = c2table :=
  ⟨by decide, C6_failure_leaves_table_unchanged hashZero cmpInt c2table 5
    patA [false] c2table (by decide)⟩

/-- With a failing allocation every terminating branch of the chain walk
returns the C allocation-failure result. -/
theorem placeObject_allocFail {α : Type} (cmp : α → α → Int) (object : α)
    (fills : List (hash_table_fill_t α)) :
    placeObject cmp object false fills = none := by
  induction fills with
  | nil => simp [placeObject]
  | cons f rest ih =>
    unfold placeObject
    by_cases h0 : cmp f.object object = 0
    · simp [h0]
    · by_cases hlt : cmp f.object object < 0
      · simp [h0, hlt, ih]
      · simp [h0, hlt]

/-- Characterisation of the chain walk with a successful allocation: the
chain splits at the first entry that does not compare strictly below the
incoming object; an exhausted chain appends at the tail, an equal entry
gains a duplicate at its chain tail, a greater entry has the new fill entry
spliced immediately before it. -/
theorem placeObject_spec {α : Type} (cmp : α → α → Int) (object : α)
    (fills : List (hash_table_fill_t α)) :
    placeObject cmp object true fills =
      match fills.dropWhile (fun f => decide (cmp f.object object < 0)) with
      | [] =>
        some (fills.takeWhile (fun f => decide (cmp f.object object < 0)) ++
          [hash_table_fill_t.mk object []], false)
      | f :: rest =>
        if cmp f.object object = 0 then
          some (fills.takeWhile (fun f => decide (cmp f.object object < 0)) ++
            hash_table_fill_t.mk f.object (f.duplicates ++ [object]) :: rest,
            true)
        else
          some (fills.takeWhile (fun f => decide (cmp f.object object < 0)) ++
            hash_table_fill_t.mk object [] :: f :: rest, false) := by
  induction fills with
  | nil => simp [placeObject]
  | cons f rest ih =>
    by_cases h0 : cmp f.object object = 0
    · have hlt : ¬cmp f.object object < 0 := by omega
      simp [placeObject, h0, hlt, List.dropWhile_cons, List.takeWhile_cons]
    · by_cases hlt : cmp f.object object < 0
      · have hstep : placeObject cmp object true (f :: rest) =
            match placeObject cmp object true rest with
            | none => none
            | some (rest2, isDup) => some (f :: rest2, isDup) := by
          simp [placeObject, h0, hlt]
        rw [hstep, ih, List.dropWhile_cons, List.takeWhile_cons]
        simp only [show decide (cmp f.object object < 0) = true from by
          simp [hlt], if_true]
        cases hdw : rest.dropWhile (fun g => decide (cmp g.object object < 0)) with
        | nil => simp
        | cons g grest =>
          by_cases hg : cmp g.object object = 0 <;> simp [hg]
      · simp [placeObject, h0, hlt, List.dropWhile_cons, List.takeWhile_cons]

/-- C3: the walk of `Hash_Table_Insert` with successful allocations. Into an
empty bucket: one new fill entry installed as the sole chain, buckets-filled
incremented. Into a non-empty bucket the walk advances over every leading
entry comparing strictly below the object; if the chain is exhausted the new
fill entry is appended at the tail (collisions incremented); if the first
remaining entry compares equal the object is appended at the tail of that
entry of the duplicate chain (duplicates incremented); otherwise (first
remaining entry compares greater) a new fill entry is spliced immediately
before it — as new head when no entry preceded (collisions incremented). -/
theorem C3_insert_walk {α : Type} (hash : String → Nat → Nat)
    (cmp : α → α → Int) (t : hash_table_t α) (object : α) (pattern : String) :
    (t.buckets.get? (hash pattern t.number_of_total_buckets) = some none →
      Hash_Table_Insert hash cmp t object pattern [true, true] =
        some (1, hash_table_t.mk
          (t.buckets.set (hash pattern t.number_of_total_buckets)
            (some (hash_table_bucket_t.mk [hash_table_fill_t.mk object []])))
          t.number_of_total_buckets (t.number_of_buckets_filled + 1)
          t.number_of_collisions t.number_of_duplicates)) ∧
    (∀ bkt, t.buckets.get? (hash pattern t.number_of_total_buckets) =
        some (some bkt) →
      Hash_Table_Insert hash cmp t object pattern [true, true] =
        match bkt.fills.dropWhile (fun f => decide (cmp f.object object < 0)) with
        | [] =>
          some (1, hash_table_t.mk
            (t.buckets.set (hash pattern t.number_of_total_buckets)
              (some (hash_table_bucket_t.mk
                (bkt.fills.takeWhile (fun f => decide (cmp f.object object < 0))
                  ++ [hash_table_fill_t.mk object []]))))
            t.number_of_total_buckets t.number_of_buckets_filled
            (t.number_of_collisions + 1) t.number_of_duplicates)
        | f :: rest =>
          if cmp f.object object = 0 then
            some (1, hash_table_t.mk
              (t.buckets.set (hash pattern t.number_of_total_buckets)
                (some (hash_table_bucket_t.mk
                  (bkt.fills.takeWhile
                    (fun f => decide (cmp f.object object < 0)) ++
                    hash_table_fill_t.mk f.object (f.duplicates ++ [object])
                    :: rest))))
              t.number_of_total_buckets t.number_of_buckets_filled
              t.number_of_collisions (t.number_of_duplicates + 1))
          else
            some (1, hash_table_t.mk
              (t.buckets.set (hash pattern t.number_of_total_buckets)
                (some (hash_table_bucket_t.mk
                  (bkt.fills.takeWhile
                    (fun f => decide (cmp f.object object < 0)) ++
                    hash_table_fill_t.mk object [] :: f :: rest))))
              t.number_of_total_buckets t.number_of_buckets_filled
              (t.number_of_collisions + 1) t.number_of_duplicates)) := by
  constructor
  · intro hb
    unfold Hash_Table_Insert bucketLookup
    rw [hb]
    simp [takeAlloc]
  · intro bkt hb
    unfold Hash_Table_Insert bucketLookup
    rw [hb]
    have ha : (takeAlloc [true, true]).1 = true := rfl
    rw [ha]
    dsimp only
    rw [placeObject_spec]
    cases hdw : bkt.fills.dropWhile (fun f => decide (cmp f.object object < 0)) with
    | nil => simp
    | cons f rest =>
      by_cases hf : cmp f.object object = 0 <;> simp [hf]

/-- C3 witness: inserting 3 into the bucket chain holding representative 5
splices a new fill entry as the new head and increments collisions. -/
theorem C3_insert_walk_witness :
    Hash_Table_Insert hashZero cmpInt c2table 3 patA [true, true] =
      some (1, hash_table_t.mk
        [some (hash_table_bucket_t.mk
          [hash_table_fill_t.mk 3 [], hash_table_fill_t.mk 5 [5]])]
        1 1 1 1) := by
  have h := (C3_insert_walk hashZero cmpInt c2table 3 patA).2
    (hash_table_bucket_t.mk [hash_table_fill_t.mk 5 [5]]) (by decide)
  exact h.trans (by decide)

/-- With a failing result-array allocation the fill-chain walk of
`Hash_Table_Match` returns NULL with the count left at its entry value. -/
theorem matchFills_allocFail {α : Type} (search : String → α → Int)
    (pattern : String) (countIn max_num_records : Nat)
    (fills : List (hash_table_fill_t α)) :
    matchFills search pattern countIn max_num_records false fills =
      some (none, countIn) := by
  induction fills with
  | nil => simp [matchFills]
  | cons f rest ih =>
    unfold matchFills
    by_cases hs : search pattern f.object = 1
    · simp [hs]
    · simp [hs, ih]

/-- The fill-chain walk with a fresh zero count, cap 1 and a successful
allocation: the first entry accepted by the search strategy is returned as
the single element of the result array with count 1; if no entry is
accepted the walk returns NULL with count 0. -/
theorem matchFills_one {α : Type} (search : String → α → Int)
    (pattern : String) (fills : List (hash_table_fill_t α)) :
    matchFills search pattern 0 1 true fills =
      match fills.find? (fun f => decide (search pattern f.object = 1)) with
      | none => some (none, 0)
      | some f => some (some [some f.object], 1) := by
  induction fills with
  | nil => simp [matchFills]
  | cons f rest ih =>
    by_cases hs : search pattern f.object = 1
    · have hw : arrayWrite [(none : Option α)] 0 f.object =
          some [some f.object] := rfl
      unfold matchFills
      rw [List.find?_cons]
      cases hd : f.duplicates <;> simp [hs, hw, collectDupsLoop]
    · unfold matchFills
      rw [List.find?_cons]
      simp only [show decide (search pattern f.object = 1) = false from by
        simp [hs]]
      simp [hs, ih]

/-- `Hash_Table_Match` with a fresh zero count and cap 1, under an in-range
hash: the result is NULL/0 on an empty bucket or when no entry is accepted,
and otherwise the one-slot array holding the first accepted representative
with count 1. -/
theorem match_one {α : Type} (hash : String → Nat → Nat)
    (search : String → α → Int) (t : hash_table_t α) (pattern : String)
    (hh : hash pattern t.number_of_total_buckets < t.buckets.length) :
    Hash_Table_Match hash search t pattern 0 1 true =
      match firstMatchSpec hash search t pattern with
      | none => some (none, 0)
      | some x => some (some [some x], 1) := by
  obtain ⟨ob, hob⟩ := bucketLookup_isSome hash t pattern hh
  unfold Hash_Table_Match firstMatchSpec
  rw [hob]
  cases ob with
  | none => simp
  | some bkt =>
    dsimp only
    rw [matchFills_one]
    cases hf : bkt.fills.find? (fun f => decide (search pattern f.object = 1)) with
    | none => simp
    | some f => simp

/-- C8: under an in-range hash, `Hash_Table_First_Match` is the cap-1
`Hash_Table_Match` wrapper the claim describes: with a successful
result-array allocation it returns the single representative that the cap-1
match finds (the first fill entry of the hashed bucket accepted by the
search strategy), and the absent result when that match finds nothing
(first conjunct); with a failing allocation the cap-1 match reports nothing
and the wrapper returns the absent result (second conjunct). -/
theorem C8_first_match_equiv {α : Type} (hash : String → Nat → Nat)
    (search : String → α → Int) (t : hash_table_t α) (pattern : String)
    (hh : hash pattern t.number_of_total_buckets < t.buckets.length) :
    Hash_Table_First_Match hash search t pattern true =
      some (firstMatchSpec hash search t pattern) ∧
    Hash_Table_First_Match hash search t pattern false = some none := by
  constructor
  · unfold Hash_Table_First_Match
    rw [match_one hash search t pattern hh]
    cases hf : firstMatchSpec hash search t pattern with
    | none => simp
    | some x => simp
  · obtain ⟨ob, hob⟩ := bucketLookup_isSome hash t pattern hh
    unfold Hash_Table_First_Match Hash_Table_Match
    rw [hob]
    cases ob with
    | none => simp
    | some bkt =>
      dsimp only
      rw [matchFills_allocFail]

/-- C8 witness: the equivalence theorem applied to a concrete table. -/
theorem C8_first_match_equiv_witness :
    Hash_Table_First_Match hashZero searchAlways c2table patA true =
      some (firstMatchSpec hashZero searchAlways c2table patA) ∧
    Hash_Table_First_Match hashZero searchAlways c2table patA false =
      some none :=
  C8_first_match_equiv hashZero searchAlways c2table patA (by decide)

/-- C5: `Hash_Table_Insert_No_Duplicate` under an in-range hash, given the
outcome `(res, cnt)` of its bounded cap-1 lookup: if the lookup reported
nothing (`cnt = 0`) the call delegates to `Hash_Table_Insert`, mapping its
success to return value 1 and its allocation failure to -1, storing nothing
in `*found_duplicate`; if the lookup found a record (`cnt ≠ 0`) the call
returns 0, stores the first matching representative into
`*found_duplicate`, and leaves the table entirely unchanged (the resulting
state is the input table, counters included). -/
theorem C5_guarded_insert {α : Type} (hash : String → Nat → Nat)
    (cmp : α → α → Int) (search : String → α → Int) (t : hash_table_t α)
    (object : α) (pattern : String) (mAlloc : Bool) (iAllocs : List Bool)
    (res : Option (List (Option α))) (cnt : Nat)
    (hh : hash pattern t.number_of_total_buckets < t.buckets.length)
    (hm : Hash_Table_Match hash search t pattern 0 1 mAlloc = some (res, cnt)) :
    (cnt = 0 →
      Hash_Table_Insert_No_Duplicate hash cmp search t object pattern mAlloc
          iAllocs =
        match Hash_Table_Insert hash cmp t object pattern iAllocs with
        | none => none
        | some (r, t2) =>
          if r = 0 then some (-1, t2, none) else some (1, t2, none)) ∧
    (cnt ≠ 0 →
      Hash_Table_Insert_No_Duplicate hash cmp search t object pattern mAlloc
          iAllocs =
        some (0, t, some (firstMatchSpec hash search t pattern))) := by
  constructor
  · intro h0
    subst h0
    unfold Hash_Table_Insert_No_Duplicate
    rw [hm]
    simp
  · intro hne
    cases mAlloc with
    | false =>
      exfalso
      apply hne
      obtain ⟨ob, hob⟩ := bucketLookup_isSome hash t pattern hh
      unfold Hash_Table_Match at hm
      rw [hob] at hm
      cases ob with
      | none =>
        simp only [Option.some.injEq, Prod.mk.injEq] at hm
        exact hm.2.symm
      | some bkt =>
        dsimp only at hm
        rw [matchFills_allocFail] at hm
        simp only [Option.some.injEq, Prod.mk.injEq] at hm
        exact hm.2.symm
    | true =>
      rw [match_one hash search t pattern hh] at hm
      cases hf : firstMatchSpec hash search t pattern with
      | none =>
        rw [hf] at hm
        simp only [Option.some.injEq, Prod.mk.injEq] at hm
        exact absurd hm.2.symm hne
      | some x =>
        unfold Hash_Table_Insert_No_Duplicate
        rw [match_one hash search t pattern hh, hf]
        simp [hf]

/-- C5 witness: the guarded-insert theorem applied to a table whose bucket
already holds a record that the search strategy accepts. -/
theorem C5_guarded_insert_witness :
    ((1 : Nat) = 0 →
      Hash_Table_Insert_No_Duplicate hashZero cmpInt searchAlways c7table 9
          patA true [true] =
        match Hash_Table_Insert hashZero cmpInt c7table 9 patA [true] with
        | none => none
        | some (r, t2) =>
          if r = 0 then some (-1, t2, none) else some (1, t2, none)) ∧
    ((1 : Nat) ≠ 0 →
      Hash_Table_Insert_No_Duplicate hashZero cmpInt searchAlways c7table 9
          patA true [true] =
        some (0, c7table, some (firstMatchSpec hashZero searchAlways c7table
          patA))) :=
  C5_guarded_insert hashZero cmpInt searchAlways c7table 9 patA true [true]
    (some [some 5]) 1 (by decide) (by decide)

/-- Case analysis of a defined `Hash_Table_Insert` call: either a failure
that left the table unchanged, or one of the three mutating outcomes —
a fresh bucket with a sole fill entry (buckets-filled incremented), a
duplicate-entry addition (duplicates incremented), or a fill-entry addition
into an existing chain (collisions incremented). -/
theorem insert_cases {α : Type} (hash : String → Nat → Nat)
    (cmp : α → α → Int) (t : hash_table_t α) (object : α) (pattern : String)
    (allocs : List Bool) (r : Int) (t2 : hash_table_t α)
    (h : Hash_Table_Insert hash cmp t object pattern allocs = some (r, t2)) :
    t2 = t ∨
    (t.buckets.get? (hash pattern t.number_of_total_buckets) = some none ∧
      t2 = hash_table_t.mk
        (t.buckets.set (hash pattern t.number_of_total_buckets)
          (some (hash_table_bucket_t.mk [hash_table_fill_t.mk object []])))
        t.number_of_total_buckets (t.number_of_buckets_filled + 1)
        t.number_of_collisions t.number_of_duplicates) ∨
    (∃ bkt fills2,
      t.buckets.get? (hash pattern t.number_of_total_buckets) =
        some (some bkt) ∧
      placeObject cmp object true bkt.fills = some (fills2, true) ∧
      t2 = hash_table_t.mk
        (t.buckets.set (hash pattern t.number_of_total_buckets)
          (some (hash_table_bucket_t.mk fills2)))
        t.number_of_total_buckets t.number_of_buckets_filled
        t.number_of_collisions (t.number_of_duplicates + 1)) ∨
    (∃ bkt fills2,
      t.buckets.get? (hash pattern t.number_of_total_buckets) =
        some (some bkt) ∧
      placeObject cmp object true bkt.fills = some (fills2, false) ∧
      t2 = hash_table_t.mk
        (t.buckets.set (hash pattern t.number_of_total_buckets)
          (some (hash_table_bucket_t.mk fills2)))
        t.number_of_total_buckets t.number_of_buckets_filled
        (t.number_of_collisions + 1) t.number_of_duplicates) := by
  unfold Hash_Table_Insert at h
  cases hb : bucketLookup hash t pattern with
  | none => rw [hb] at h; exact Option.noConfusion h
  | some ob =>
    rw [hb] at h
    cases ob with
    | none =>
      dsimp only at h
      split at h
      · left
        simp only [Option.some.injEq, Prod.mk.injEq] at h
        exact h.2.symm
      · split at h
        · left
          simp only [Option.some.injEq, Prod.mk.injEq] at h
          exact h.2.symm
        · right; left
          simp only [Option.some.injEq, Prod.mk.injEq] at h
          exact ⟨hb, h.2.symm⟩
    | some bkt =>
      dsimp only at h
      cases ha : (takeAlloc allocs).1 with
      | false =>
        rw [ha, placeObject_allocFail] at h
        left
        simp only [Option.some.injEq, Prod.mk.injEq] at h
        exact h.2.symm
      | true =>
        rw [ha] at h
        cases hp : placeObject cmp object true bkt.fills with
        | none =>
          rw [hp] at h
          left
          simp only [Option.some.injEq, Prod.mk.injEq] at h
          exact h.2.symm
        | some pr =>
          obtain ⟨fills2, isDup⟩ := pr
          rw [hp] at h
          cases isDup with
          | true =>
            right; right; left
            dsimp only at h
            simp only [Option.some.injEq, Prod.mk.injEq] at h
            exact ⟨bkt, fills2, hb, hp, h.2.symm⟩
          | false =>
            right; right; right
            dsimp only at h
            simp only [Option.some.injEq, Prod.mk.injEq] at h
            exact ⟨bkt, fills2, hb, hp, h.2.symm⟩

/-- Replacing one list slot shifts a mapped sum by the weight difference of
the old and new values. -/
theorem map_sum_set {β : Type} (f : β → Nat) (l : List β) :
    ∀ i old v, l.get? i = some old →
      ((l.set i v).map f).sum + f old = (l.map f).sum + f v := by
  induction l with
  | nil => intro i old v h; simp at h
  | cons x xs ih =>
    intro i old v h
    cases i with
    | zero =>
      rw [List.get?_cons_zero] at h
      simp only [Option.some.injEq] at h
      subst h
      simp only [List.set, List.map_cons, List.sum_cons]
      omega
    | succ n =>
      rw [List.get?_cons_succ] at h
      have hx := ih n old v h
      simp only [List.set, List.map_cons, List.sum_cons]
      omega

/-- The duplicate count distributes over chain concatenation. -/
theorem fillsDupCount_append {α : Type} (a b : List (hash_table_fill_t α)) :
    fillsDupCount (a ++ b) = fillsDupCount a + fillsDupCount b := by
  simp [fillsDupCount]

/-- The duplicate count of an empty chain. -/
theorem fillsDupCount_nil {α : Type} :
    fillsDupCount ([] : List (hash_table_fill_t α)) = 0 := rfl

/-- The duplicate count of a chain with an explicit head. -/
theorem fillsDupCount_cons {α : Type} (f : hash_table_fill_t α)
    (rest : List (hash_table_fill_t α)) :
    fillsDupCount (f :: rest) = f.duplicates.length + fillsDupCount rest := by
  simp [fillsDupCount]

/-- A duplicate-adding chain walk keeps the number of fill entries and adds
exactly one duplicate entry. -/
theorem placeObject_true_counts {α : Type} (cmp : α → α → Int) (object : α)
    (fills fills2 : List (hash_table_fill_t α))
    (h : placeObject cmp object true fills = some (fills2, true)) :
    fills2.length = fills.length ∧
    fillsDupCount fills2 = fillsDupCount fills + 1 := by
  rw [placeObject_spec] at h
  cases hdw : fills.dropWhile (fun f => decide (cmp f.object object < 0)) with
  | nil =>
    rw [hdw] at h
    dsimp only at h
    simp at h
  | cons f rest =>
    rw [hdw] at h
    dsimp only at h
    have hTD := List.takeWhile_append_dropWhile
      (fun f => decide (cmp f.object object < 0)) fills
    rw [hdw] at hTD
    by_cases hf : cmp f.object object = 0
    · rw [if_pos hf] at h
      simp only [Option.some.injEq, Prod.mk.injEq] at h
      have hL1 := congrArg List.length h.1
      have hL2 := congrArg List.length hTD
      have hD1 := congrArg fillsDupCount h.1
      have hD2 := congrArg fillsDupCount hTD
      rw [fillsDupCount_append, fillsDupCount_cons] at hD1 hD2
      dsimp only at hD1
      simp only [List.length_append, List.length_cons, List.length_nil]
        at hL1 hL2 hD1
      constructor <;> omega
    · rw [if_neg hf] at h
      simp at h

/-- A fill-adding chain walk adds exactly one fill entry (with an empty
duplicate chain) and keeps the number of duplicate entries. -/
theorem placeObject_false_counts {α : Type} (cmp : α → α → Int) (object : α)
    (fills fills2 : List (hash_table_fill_t α))
    (h : placeObject cmp object true fills = some (fills2, false)) :
    fills2.length = fills.length + 1 ∧
    fillsDupCount fills2 = fillsDupCount fills := by
  rw [placeObject_spec] at h
  cases hdw : fills.dropWhile (fun f => decide (cmp f.object object < 0)) with
  | nil =>
    rw [hdw] at h
    dsimp only at h
    have hTD := List.takeWhile_append_dropWhile
      (fun f => decide (cmp f.object object < 0)) fills
    rw [hdw, List.append_nil] at hTD
    simp only [Option.some.injEq, Prod.mk.injEq] at h
    have hL1 := congrArg List.length h.1
    have hL2 := congrArg List.length hTD
    have hD1 := congrArg fillsDupCount h.1
    have hD2 := congrArg fillsDupCount hTD
    rw [fillsDupCount_append, fillsDupCount_cons, fillsDupCount_nil] at hD1
    dsimp only at hD1
    simp only [List.length_append, List.length_cons, List.length_nil]
      at hL1 hL2 hD1
    constructor <;> omega
  | cons f rest =>
    rw [hdw] at h
    dsimp only at h
    have hTD := List.takeWhile_append_dropWhile
      (fun f => decide (cmp f.object object < 0)) fills
    rw [hdw] at hTD
    by_cases hf : cmp f.object object = 0
    · rw [if_pos hf] at h
      simp at h
    · rw [if_neg hf] at h
      simp only [Option.some.injEq, Prod.mk.injEq] at h
      have hL1 := congrArg List.length h.1
      have hL2 := congrArg List.length hTD
      have hD1 := congrArg fillsDupCount h.1
      have hD2 := congrArg fillsDupCount hTD
      rw [fillsDupCount_append, fillsDupCount_cons, fillsDupCount_cons]
        at hD1
      rw [fillsDupCount_append, fillsDupCount_cons] at hD2
      dsimp only at hD1
      simp only [List.length_append, List.length_cons, List.length_nil]
        at hL1 hL2 hD1
      constructor <;> omega

/-- The counter identity of the data model: buckets-filled plus collisions
equals the fill entries linked into the table, and the duplicates counter
equals the duplicate entries linked into the table. -/
def countersOk {α : Type} (t : hash_table_t α) : Prop :=
  t.number_of_buckets_filled + t.number_of_collisions = totalFills t ∧
  t.number_of_duplicates = totalDups t

/-- A defined `Hash_Table_Insert` call preserves the counter identity. -/
theorem insert_preserves_countersOk {α : Type} (hash : String → Nat → Nat)
    (cmp : α → α → Int) (t : hash_table_t α) (object : α) (pattern : String)
    (allocs : List Bool) (r : Int) (t2 : hash_table_t α)
    (h : Hash_Table_Insert hash cmp t object pattern allocs = some (r, t2))
    (hc : countersOk t) : countersOk t2 := by
  obtain ⟨hc1, hc2⟩ := hc
  rcases insert_cases hash cmp t object pattern allocs r t2 h with
    heq | ⟨hb, ht2⟩ | ⟨bkt, fills2, hb, hp, ht2⟩ | ⟨bkt, fills2, hb, hp, ht2⟩
  · rw [heq]; exact ⟨hc1, hc2⟩
  · subst ht2
    have hF := map_sum_set bucketFillCount t.buckets
      (hash pattern t.number_of_total_buckets) none
      (some (hash_table_bucket_t.mk [hash_table_fill_t.mk object []])) hb
    have hD := map_sum_set bucketDupCount t.buckets
      (hash pattern t.number_of_total_buckets) none
      (some (hash_table_bucket_t.mk [hash_table_fill_t.mk object []])) hb
    unfold countersOk totalFills totalDups at *
    dsimp only at *
    simp only [bucketFillCount, bucketDupCount] at hF hD
    simp only [List.length_cons, List.length_nil] at hF
    rw [show fillsDupCount [hash_table_fill_t.mk object []] = 0 from rfl] at hD
    constructor <;> omega
  · subst ht2
    obtain ⟨hlen, hdup⟩ := placeObject_true_counts cmp object bkt.fills
      fills2 hp
    have hF := map_sum_set bucketFillCount t.buckets
      (hash pattern t.number_of_total_buckets) (some bkt)
      (some (hash_table_bucket_t.mk fills2)) hb
    have hD := map_sum_set bucketDupCount t.buckets
      (hash pattern t.number_of_total_buckets) (some bkt)
      (some (hash_table_bucket_t.mk fills2)) hb
    unfold countersOk totalFills totalDups at *
    dsimp only at *
    simp only [bucketFillCount, bucketDupCount] at hF hD
    constructor <;> omega
  · subst ht2
    obtain ⟨hlen, hdup⟩ := placeObject_false_counts cmp object bkt.fills
      fills2 hp
    have hF := map_sum_set bucketFillCount t.buckets
      (hash pattern t.number_of_total_buckets) (some bkt)
      (some (hash_table_bucket_t.mk fills2)) hb
    have hD := map_sum_set bucketDupCount t.buckets
      (hash pattern t.number_of_total_buckets) (some bkt)
      (some (hash_table_bucket_t.mk fills2)) hb
    unfold countersOk totalFills totalDups at *
    dsimp only at *
    simp only [bucketFillCount, bucketDupCount] at hF hD
    constructor <;> omega

/-- A defined duplicate-guarded insert either leaves the table unchanged or
produces exactly the state of the delegated plain insert. -/
theorem noDup_state {α : Type} (hash : String → Nat → Nat) (cmp : α → α → Int)
    (search : String → α → Int) (t : hash_table_t α) (object : α)
    (pattern : String) (mAlloc : Bool) (insertAllocs : List Bool) (r : Int)
    (t2 : hash_table_t α) (fd : Option (Option α))
    (h : Hash_Table_Insert_No_Duplicate hash cmp search t object pattern
      mAlloc insertAllocs = some (r, t2, fd)) :
    t2 = t ∨ ∃ r2, Hash_Table_Insert hash cmp t object pattern insertAllocs =
      some (r2, t2) := by
  unfold Hash_Table_Insert_No_Duplicate at h
  cases hm : Hash_Table_Match hash search t pattern 0 1 mAlloc with
  | none => rw [hm] at h; exact Option.noConfusion h
  | some pr =>
    obtain ⟨ot, nr⟩ := pr
    rw [hm] at h
    dsimp only at h
    by_cases hnr : nr = 0
    · rw [if_pos hnr] at h
      cases hi : Hash_Table_Insert hash cmp t object pattern insertAllocs with
      | none => rw [hi] at h; exact Option.noConfusion h
      | some pr2 =>
        obtain ⟨r2, t3⟩ := pr2
        rw [hi] at h
        dsimp only at h
        right
        refine ⟨r2, ?_⟩
        by_cases hr2 : r2 = 0
        · rw [if_pos hr2] at h
          simp only [Option.some.injEq, Prod.mk.injEq] at h
          rw [h.2.1]
        · rw [if_neg hr2] at h
          simp only [Option.some.injEq, Prod.mk.injEq] at h
          rw [h.2.1]
    · rw [if_neg hnr] at h
      cases ot with
      | none => exact Option.noConfusion h
      | some arr =>
        dsimp only at h
        cases harr : arr.get? 0 with
        | none => rw [harr] at h; exact Option.noConfusion h
        | some v =>
          rw [harr] at h
          simp only [Option.some.injEq, Prod.mk.injEq] at h
          left
          exact h.2.1.symm

/-- A defined operation either leaves the table unchanged or produces the
state of some plain insert on it. -/
theorem applyOp_state {α : Type} (hash : String → Nat → Nat)
    (cmp : α → α → Int) (search : String → α → Int) (t t2 : hash_table_t α)
    (op : table_op α) (h : applyOp hash cmp search t op = some t2) :
    t2 = t ∨ ∃ object pattern allocs r,
      Hash_Table_Insert hash cmp t object pattern allocs = some (r, t2) := by
  cases op with
  | ins object pattern allocs =>
    unfold applyOp at h
    dsimp only at h
    cases hi : Hash_Table_Insert hash cmp t object pattern allocs with
    | none => rw [hi] at h; exact Option.noConfusion h
    | some pr =>
      obtain ⟨r, t3⟩ := pr
      rw [hi] at h
      dsimp only at h
      simp only [Option.some.injEq] at h
      right
      exact ⟨object, pattern, allocs, r, h ▸ hi⟩
  | insNoDup object pattern mAlloc allocs =>
    unfold applyOp at h
    dsimp only at h
    cases hi : Hash_Table_Insert_No_Duplicate hash cmp search t object
        pattern mAlloc allocs with
    | none => rw [hi] at h; exact Option.noConfusion h
    | some tr =>
      obtain ⟨r, t3, fd⟩ := tr
      rw [hi] at h
      dsimp only at h
      simp only [Option.some.injEq] at h
      subst h
      rcases noDup_state hash cmp search t object pattern mAlloc allocs r
        t3 fd hi with heq | ⟨r2, hins⟩
      · left; exact heq
      · right; exact ⟨object, pattern, allocs, r2, hins⟩

/-- Running any operation sequence preserves the counter identity. -/
theorem runOps_preserves_countersOk {α : Type} (hash : String → Nat → Nat)
    (cmp : α → α → Int) (search : String → α → Int)
    (ops : List (table_op α)) : ∀ t t2, countersOk t →
    runOps hash cmp search t ops = some t2 → countersOk t2 := by
  induction ops with
  | nil =>
    intro t t2 hc h
    unfold runOps at h
    simp only [Option.some.injEq] at h
    exact h ▸ hc
  | cons op rest ih =>
    intro t t2 hc h
    unfold runOps at h
    cases ha : applyOp hash cmp search t op with
    | none => rw [ha] at h; exact Option.noConfusion h
    | some t3 =>
      rw [ha] at h
      refine ih t3 t2 ?_ h
      rcases applyOp_state hash cmp search t t3 op ha with
        heq | ⟨object, pattern, allocs, r, hins⟩
      · exact heq ▸ hc
      · exact insert_preserves_countersOk hash cmp t object pattern allocs
          r t3 hins hc

/-- The table a successful `Hash_Table_Init` returns. -/
theorem init_eq {α : Type} (nb : Nat) (a1 a2 : Bool) (t0 : hash_table_t α)
    (h : Hash_Table_Init α nb a1 a2 = some t0) :
    t0 = hash_table_t.mk (List.replicate nb none) nb 0 0 0 := by
  unfold Hash_Table_Init at h
  split at h
  · exact Option.noConfusion h
  · split at h
    · exact Option.noConfusion h
    · simp only [Option.some.injEq] at h
      exact h.symm

/-- The freshly initialised table satisfies the counter identity. -/
theorem countersOk_init {α : Type} (nb : Nat) :
    countersOk (hash_table_t.mk
      (List.replicate nb (none : Option (hash_table_bucket_t α))) nb 0 0 0) := by
  unfold countersOk totalFills totalDups
  dsimp only
  constructor <;>
    simp [List.map_replicate, bucketFillCount, bucketDupCount]

/-- C4: the three counters start at zero at construction, and after any
sequence of (guarded or plain) insert operations, buckets-filled plus
collisions equals the number of fill entries linked into the table (each
distinct-key insert creates exactly one, none is ever removed) and the
duplicates counter equals the number of duplicate entries linked into the
table (one per duplicate-key insert). -/
theorem C4_counter_identity {α : Type} (hash : String → Nat → Nat)
    (cmp : α → α → Int) (search : String → α → Int) (nb : Nat)
    (a1 a2 : Bool) (t0 t : hash_table_t α) (ops : List (table_op α))
    (hinit : Hash_Table_Init α nb a1 a2 = some t0)
    (hrun : runOps hash cmp search t0 ops = some t) :
    t0.number_of_buckets_filled = 0 ∧ t0.number_of_collisions = 0 ∧
    t0.number_of_duplicates = 0 ∧
    t.number_of_buckets_filled + t.number_of_collisions = totalFills t ∧
    t.number_of_duplicates = totalDups t := by
  have h0 := init_eq nb a1 a2 t0 hinit
  subst h0
  have hck := runOps_preserves_countersOk hash cmp search ops _ t
    (countersOk_init nb) hrun
  exact ⟨rfl, rfl, rfl, hck.1, hck.2⟩

/-- Fixture operation sequence: two distinct keys and one duplicate key. -/
def opsC4 : List (table_op Int) :=
  [table_op.ins 5 patA [true, true], table_op.ins 9 patA [true, true],
   table_op.ins 5 patA [true, true]]

/-- C4 witness: the counter identity theorem applied to a concrete run. -/
theorem C4_counter_identity_witness :
    (hash_table_t.mk (List.replicate 1 (none : Option (hash_table_bucket_t Int)))
      1 0 0 0).number_of_buckets_filled = 0 ∧
    (hash_table_t.mk (List.replicate 1 (none : Option (hash_table_bucket_t Int)))
      1 0 0 0).number_of_collisions = 0 ∧
    (hash_table_t.mk (List.replicate 1 (none : Option (hash_table_bucket_t Int)))
      1 0 0 0).number_of_duplicates = 0 ∧
    (hash_table_t.mk
      [some (hash_table_bucket_t.mk
        [hash_table_fill_t.mk 5 [5], hash_table_fill_t.mk 9 []])]
      1 1 1 1).number_of_buckets_filled +
      (hash_table_t.mk
        [some (hash_table_bucket_t.mk
          [hash_table_fill_t.mk 5 [5], hash_table_fill_t.mk 9 []])]
        1 1 1 1).number_of_collisions =
      totalFills (hash_table_t.mk
        [some (hash_table_bucket_t.mk
          [hash_table_fill_t.mk 5 [5], hash_table_fill_t.mk 9 []])]
        1 1 1 1) ∧
    (hash_table_t.mk
      [some (hash_table_bucket_t.mk
        [hash_table_fill_t.mk 5 [5], hash_table_fill_t.mk 9 []])]
      1 1 1 1).number_of_duplicates =
      totalDups (hash_table_t.mk
        [some (hash_table_bucket_t.mk
          [hash_table_fill_t.mk 5 [5], hash_table_fill_t.mk 9 []])]
        1 1 1 1) :=
  C4_counter_identity hashZero cmpInt searchAlways 1 true true
    (hash_table_t.mk (List.replicate 1 none) 1 0 0 0)
    (hash_table_t.mk
      [some (hash_table_bucket_t.mk
        [hash_table_fill_t.mk 5 [5], hash_table_fill_t.mk 9 []])]
      1 1 1 1) opsC4 (by decide) (by decide)

/-- A defined `Hash_Table_Insert` keeps the bucket count and never decreases
any counter. -/
theorem insert_state_le {α : Type} (hash : String → Nat → Nat)
    (cmp : α → α → Int) (t : hash_table_t α) (object : α) (pattern : String)
    (allocs : List Bool) (r : Int) (t2 : hash_table_t α)
    (h : Hash_Table_Insert hash cmp t object pattern allocs = some (r, t2)) :
    t2.number_of_total_buckets = t.number_of_total_buckets ∧
    t.number_of_buckets_filled ≤ t2.number_of_buckets_filled ∧
    t.number_of_collisions ≤ t2.number_of_collisions ∧
    t.number_of_duplicates ≤ t2.number_of_duplicates := by
  rcases insert_cases hash cmp t object pattern allocs r t2 h with
    heq | ⟨hb, ht2⟩ | ⟨bkt, fills2, hb, hp, ht2⟩ | ⟨bkt, fills2, hb, hp, ht2⟩
  · subst heq; exact ⟨rfl, le_refl _, le_refl _, le_refl _⟩
  · subst ht2; dsimp only; omega
  · subst ht2; dsimp only; omega
  · subst ht2; dsimp only; omega

/-- A defined operation keeps the bucket count and never decreases any
counter. -/
theorem applyOp_state_le {α : Type} (hash : String → Nat → Nat)
    (cmp : α → α → Int) (search : String → α → Int) (t t2 : hash_table_t α)
    (op : table_op α) (h : applyOp hash cmp search t op = some t2) :
    t2.number_of_total_buckets = t.number_of_total_buckets ∧
    t.number_of_buckets_filled ≤ t2.number_of_buckets_filled ∧
    t.number_of_collisions ≤ t2.number_of_collisions ∧
    t.number_of_duplicates ≤ t2.number_of_duplicates := by
  rcases applyOp_state hash cmp search t t2 op h with
    heq | ⟨object, pattern, allocs, r, hins⟩
  · subst heq; exact ⟨rfl, le_refl _, le_refl _, le_refl _⟩
  · exact insert_state_le hash cmp t object pattern allocs r t2 hins

/-- Running any operation sequence keeps the bucket count and never
decreases any counter. -/
theorem runOps_state_le {α : Type} (hash : String → Nat → Nat)
    (cmp : α → α → Int) (search : String → α → Int)
    (ops : List (table_op α)) : ∀ t t2,
    runOps hash cmp search t ops = some t2 →
    t2.number_of_total_buckets = t.number_of_total_buckets ∧
    t.number_of_buckets_filled ≤ t2.number_of_buckets_filled ∧
    t.number_of_collisions ≤ t2.number_of_collisions ∧
    t.number_of_duplicates ≤ t2.number_of_duplicates := by
  induction ops with
  | nil =>
    intro t t2 h
    unfold runOps at h
    simp only [Option.some.injEq] at h
    subst h
    exact ⟨rfl, le_refl _, le_refl _, le_refl _⟩
  | cons op rest ih =>
    intro t t2 h
    unfold runOps at h
    cases ha : applyOp hash cmp search t op with
    | none => rw [ha] at h; exact Option.noConfusion h
    | some t3 =>
      rw [ha] at h
      have h1 := applyOp_state_le hash cmp search t t3 op ha
      have h2 := ih t3 t2 h
      exact ⟨h2.1.trans h1.1, h1.2.1.trans h2.2.1, h1.2.2.1.trans h2.2.2.1,
        h1.2.2.2.trans h2.2.2.2⟩

/-- C9: `Hash_Table_Size` never decreases across any sequence of plain or
duplicate-guarded insert operations — the bucket count is fixed and each
counter feeding the size formula is non-decreasing, and no removal
operation exists. -/
theorem C9_size_monotone {α : Type} (hash : String → Nat → Nat)
    (cmp : α → α → Int) (search : String → α → Int) (t t2 : hash_table_t α)
    (ops : List (table_op α))
    (hrun : runOps hash cmp search t ops = some t2) :
    Hash_Table_Size t ≤ Hash_Table_Size t2 := by
  obtain ⟨hnb, h1, h2, h3⟩ := runOps_state_le hash cmp search ops t t2 hrun
  simp only [Hash_Table_Size, sizeof_hash_table_t, sizeof_ptr,
    sizeof_hash_table_bucket_t, sizeof_hash_table_fill_t,
    sizeof_hash_table_duplicate_t]
  rw [hnb]
  omega

/-- C9 witness: size monotonicity applied to a concrete one-insert run. -/
theorem C9_size_monotone_witness :
    Hash_Table_Size c7table ≤ Hash_Table_Size
      (hash_table_t.mk
        [some (hash_table_bucket_t.mk
          [hash_table_fill_t.mk 5 [], hash_table_fill_t.mk 9 []])]
        1 1 1 0) :=
  C9_size_monotone hashZero cmpInt searchAlways c7table
    (hash_table_t.mk
      [some (hash_table_bucket_t.mk
        [hash_table_fill_t.mk 5 [], hash_table_fill_t.mk 9 []])]
      1 1 1 0)
    [table_op.ins 9 patA [true, true]] (by decide)

/-- The head of a non-empty `dropWhile` result fails the predicate. -/
theorem dropWhile_head_false {β : Type} (p : β → Bool) (l : List β) :
    ∀ x xs, l.dropWhile p = x :: xs → p x = false := by
  induction l with
  | nil => intro x xs h; exact List.noConfusion h
  | cons y ys ih =>
    intro x xs h
    rw [List.dropWhile_cons] at h
    by_cases hy : p y = true
    · rw [if_pos hy] at h
      exact ih x xs h
    · rw [if_neg hy] at h
      injection h with h1 h2
      subst h1
      simpa using hy


/-- The chain walk preserves strict ascending order under any comparator
whose sign relations form a consistent total order: advancing keeps the
prefix strictly below the object, an equal entry only grows its duplicate
chain, and a splice lands between the strictly-below prefix and the
strictly-above remainder. The two hypotheses are the order axioms on the
comparator itself — a positive verdict flips to a negative one when the
arguments swap, and the strictly-below relation is transitive; totality
needs no hypothesis because every integer result is negative, zero or
positive. -/
theorem placeObject_preserves_pairwise {α : Type} (cmp : α → α → Int)
    (hasym : ∀ a b, 0 < cmp a b → cmp b a < 0)
    (htrans : ∀ a b c, cmp a b < 0 → cmp b c < 0 → cmp a c < 0)
    (object : α) (fills fills2 : List (hash_table_fill_t α)) (isDup : Bool)
    (hs : fills.Pairwise (fun f g => cmp f.object g.object < 0))
    (h : placeObject cmp object true fills = some (fills2, isDup)) :
    fills2.Pairwise (fun f g => cmp f.object g.object < 0) := by
  rw [placeObject_spec] at h
  have hTD := List.takeWhile_append_dropWhile
    (fun f : hash_table_fill_t α => decide (cmp f.object object < 0)) fills
  have hA : ∀ g ∈ fills.takeWhile
      (fun f : hash_table_fill_t α => decide (cmp f.object object < 0)),
      cmp g.object object < 0 := by
    intro g hg
    have hgp := List.mem_takeWhile_imp hg
    simpa using hgp
  have hs2 : (fills.takeWhile
      (fun f : hash_table_fill_t α => decide (cmp f.object object < 0)) ++
      fills.dropWhile
      (fun f : hash_table_fill_t α => decide (cmp f.object object < 0))).Pairwise
      (fun f g => cmp f.object g.object < 0) := by
    rw [hTD]; exact hs
  rw [List.pairwise_append] at hs2
  obtain ⟨hsA, hsB, hsAB⟩ := hs2
  cases hdw : fills.dropWhile
      (fun f : hash_table_fill_t α => decide (cmp f.object object < 0)) with
  | nil =>
    rw [hdw] at h
    dsimp only at h
    simp only [Option.some.injEq, Prod.mk.injEq] at h
    rw [← h.1]
    rw [List.pairwise_append]
    refine ⟨hsA, by simp, ?_⟩
    intro a ha b hb
    rw [List.mem_singleton] at hb
    subst hb
    exact hA a ha
  | cons f rest =>
    rw [hdw] at h
    dsimp only at h
    rw [hdw] at hsB hsAB
    rw [List.pairwise_cons] at hsB
    obtain ⟨hsf, hsrest⟩ := hsB
    by_cases hf : cmp f.object object = 0
    · rw [if_pos hf] at h
      simp only [Option.some.injEq, Prod.mk.injEq] at h
      rw [← h.1]
      rw [List.pairwise_append, List.pairwise_cons]
      refine ⟨hsA, ⟨?_, hsrest⟩, ?_⟩
      · intro b hb
        exact hsf b hb
      · intro a ha b hb
        rw [List.mem_cons] at hb
        rcases hb with hb | hb
        · subst hb
          exact hsAB a ha f (List.mem_cons_self f rest)
        · exact hsAB a ha b (List.mem_cons_of_mem f hb)
    · rw [if_neg hf] at h
      simp only [Option.some.injEq, Prod.mk.injEq] at h
      have hpos : 0 < cmp f.object object := by
        have hnp := dropWhile_head_false
          (fun f : hash_table_fill_t α => decide (cmp f.object object < 0))
          fills f rest hdw
        simp only [decide_eq_false_iff_not] at hnp
        omega
      have hkf : cmp object f.object < 0 := hasym f.object object hpos
      rw [← h.1]
      rw [List.pairwise_append, List.pairwise_cons]
      refine ⟨hsA, ⟨?_, ?_⟩, ?_⟩
      · intro b hb
        rw [List.mem_cons] at hb
        rcases hb with hb | hb
        · subst hb
          exact hkf
        · exact htrans object f.object b.object hkf (hsf b hb)
      · rw [List.pairwise_cons]
        exact ⟨hsf, hsrest⟩
      · intro a ha b hb
        rw [List.mem_cons] at hb
        rcases hb with hb | hb
        · subst hb
          exact hA a ha
        · rw [List.mem_cons] at hb
          rcases hb with hb | hb
          · exact hb ▸ hsAB a ha f (List.mem_cons_self f rest)
          · exact hsAB a ha b (List.mem_cons_of_mem f hb)

/-- Every bucket chain of the table is strictly ascending under the compare
strategy. -/
def sortedChains {α : Type} (cmp : α → α → Int) (t : hash_table_t α) : Prop :=
  ∀ i bkt, t.buckets.get? i = some (some bkt) →
    bkt.fills.Pairwise (fun f g => cmp f.object g.object < 0)

/-- A defined `Hash_Table_Insert` preserves the strict bucket-chain order
when the compare strategy is a consistent total order. -/
theorem insert_preserves_sorted {α : Type} (hash : String → Nat → Nat)
    (cmp : α → α → Int)
    (hasym : ∀ a b, 0 < cmp a b → cmp b a < 0)
    (htrans : ∀ a b c, cmp a b < 0 → cmp b c < 0 → cmp a c < 0)
    (t : hash_table_t α) (object : α) (pattern : String) (allocs : List Bool)
    (r : Int) (t2 : hash_table_t α)
    (h : Hash_Table_Insert hash cmp t object pattern allocs = some (r, t2))
    (hs : sortedChains cmp t) : sortedChains cmp t2 := by
  have hidx : ∀ ob, t.buckets.get?
      (hash pattern t.number_of_total_buckets) = some ob →
      hash pattern t.number_of_total_buckets < t.buckets.length := by
    intro ob hob
    by_contra hge
    rw [List.get?_eq_none.mpr (le_of_not_lt hge)] at hob
    exact Option.noConfusion hob
  rcases insert_cases hash cmp t object pattern allocs r t2 h with
    hteq | ⟨hb, ht2⟩ | ⟨bkt, fills2, hb, hp, ht2⟩ | ⟨bkt, fills2, hb, hp, ht2⟩
  · rw [hteq]; exact hs
  · subst ht2
    intro j bkt hj
    dsimp only at hj
    by_cases hij : hash pattern t.number_of_total_buckets = j
    · subst hij
      rw [List.get?_set_eq_of_lt _ (hidx none hb)] at hj
      simp only [Option.some.injEq] at hj
      subst hj
      simp
    · rw [List.get?_set_ne _ _ hij] at hj
      exact hs j bkt hj
  · subst ht2
    intro j bkt2 hj
    dsimp only at hj
    by_cases hij : hash pattern t.number_of_total_buckets = j
    · subst hij
      rw [List.get?_set_eq_of_lt _ (hidx (some bkt) hb)] at hj
      simp only [Option.some.injEq] at hj
      subst hj
      exact placeObject_preserves_pairwise cmp hasym htrans object bkt.fills
        fills2 true (hs _ bkt hb) hp
    · rw [List.get?_set_ne _ _ hij] at hj
      exact hs j bkt2 hj
  · subst ht2
    intro j bkt2 hj
    dsimp only at hj
    by_cases hij : hash pattern t.number_of_total_buckets = j
    · subst hij
      rw [List.get?_set_eq_of_lt _ (hidx (some bkt) hb)] at hj
      simp only [Option.some.injEq] at hj
      subst hj
      exact placeObject_preserves_pairwise cmp hasym htrans object bkt.fills
        fills2 false (hs _ bkt hb) hp
    · rw [List.get?_set_ne _ _ hij] at hj
      exact hs j bkt2 hj

/-- Running any operation sequence preserves the strict bucket-chain
order. -/
theorem runOps_preserves_sorted {α : Type} (hash : String → Nat → Nat)
    (cmp : α → α → Int) (search : String → α → Int)
    (hasym : ∀ a b, 0 < cmp a b → cmp b a < 0)
    (htrans : ∀ a b c, cmp a b < 0 → cmp b c < 0 → cmp a c < 0)
    (ops : List (table_op α)) : ∀ t t2, sortedChains cmp t →
    runOps hash cmp search t ops = some t2 → sortedChains cmp t2 := by
  induction ops with
  | nil =>
    intro t t2 hs h
    unfold runOps at h
    simp only [Option.some.injEq] at h
    exact h ▸ hs
  | cons op rest ih =>
    intro t t2 hs h
    unfold runOps at h
    cases ha : applyOp hash cmp search t op with
    | none => rw [ha] at h; exact Option.noConfusion h
    | some t3 =>
      rw [ha] at h
      refine ih t3 t2 ?_ h
      rcases applyOp_state hash cmp search t t3 op ha with
        hteq | ⟨object, pattern, allocs, r, hins⟩
      · exact hteq ▸ hs
      · exact insert_preserves_sorted hash cmp hasym htrans t object pattern
          allocs r t3 hins hs

/-- The freshly initialised table has only empty buckets, hence sorted
chains. -/
theorem sortedChains_init {α : Type} (cmp : α → α → Int) (nb : Nat) :
    sortedChains cmp (hash_table_t.mk
      (List.replicate nb (none : Option (hash_table_bucket_t α))) nb 0 0 0) := by
  intro i bkt hi
  dsimp only at hi
  have hmem := List.get?_mem hi
  have := List.eq_of_mem_replicate hmem
  exact Option.noConfusion this

/-- C1: starting from `Hash_Table_Init` and running any sequence of insert
operations whose compare strategy is a consistent total order — stated as
order axioms on the comparator itself: a positive verdict flips to a
negative one when the arguments swap, and the strictly-below relation is
transitive (totality is automatic, every integer verdict being negative,
zero or positive) — and whose hash strategy stays in range, every bucket
chain, walked head to tail, is strictly ascending: all pairs of fill
entries compare strictly below one another (non-decreasing order) and no
two fill entries in a bucket compare equal — equal-keyed objects only ever
land in a duplicate chain. -/
theorem C1_order_invariant {α : Type} (hash : String → Nat → Nat)
    (cmp : α → α → Int) (search : String → α → Int)
    (hasym : ∀ a b, 0 < cmp a b → cmp b a < 0)
    (htrans : ∀ a b c, cmp a b < 0 → cmp b c < 0 → cmp a c < 0)
    (nb : Nat) (a1 a2 : Bool) (t0 t : hash_table_t α)
    (ops : List (table_op α))
    (hh : ∀ p, hash p nb < nb)
    (hinit : Hash_Table_Init α nb a1 a2 = some t0)
    (hrun : runOps hash cmp search t0 ops = some t) :
    ∀ i bkt, t.buckets.get? i = some (some bkt) →
      bkt.fills.Pairwise (fun f g =>
        cmp f.object g.object < 0 ∧ cmp f.object g.object ≠ 0) := by
  have h0 := init_eq nb a1 a2 t0 hinit
  subst h0
  have hsorted := runOps_preserves_sorted hash cmp search hasym htrans ops _
    t (sortedChains_init cmp nb) hrun
  intro i bkt hi
  refine (hsorted i bkt hi).imp ?_
  intro f g hk
  exact ⟨hk, by omega⟩

/-- C1 witness: three inserts with keys 5, 3, 4 leave the single bucket
chain strictly ascending. -/
theorem C1_order_invariant_witness :
    List.Pairwise (fun f g : hash_table_fill_t Int =>
      cmpInt f.object g.object < 0 ∧ cmpInt f.object g.object ≠ 0)
      [hash_table_fill_t.mk 3 [], hash_table_fill_t.mk 4 [],
       hash_table_fill_t.mk 5 []] :=
  C1_order_invariant hashZero cmpInt searchAlways
    (by intro a b h; simp only [cmpInt] at *; omega)
    (by intro a b c h1 h2; simp only [cmpInt] at *; omega)
    1 true true (hash_table_t.mk (List.replicate 1 none) 1 0 0 0)
    (hash_table_t.mk
      [some (hash_table_bucket_t.mk
        [hash_table_fill_t.mk 3 [], hash_table_fill_t.mk 4 [],
         hash_table_fill_t.mk 5 []])] 1 1 2 0)
    [table_op.ins 5 patA [true, true], table_op.ins 3 patA [true, true],
     table_op.ins 4 patA [true, true]]
    (fun _ => Nat.zero_lt_one) (by decide) (by decide) 0
    (hash_table_bucket_t.mk
      [hash_table_fill_t.mk 3 [], hash_table_fill_t.mk 4 [],
       hash_table_fill_t.mk 5 []]) (by decide)
